import Mathlib

/-!
Verification of the routing-and-topology core of the Aerospike Go client
(partition map, validate, clone, replica-count resize, regime updates, and
the error model: Matches, chainErrors, setInDoubt, constant-error copies).

The Go code is shallowly embedded:
* `GoError` models values of Go's `error` interface as they occur in this
  package: `nilE` is the nil interface, `ae` is a `*AerospikeError`
  (fields in source order: ResultCode, InDoubt, Iteration, Node, msg,
  wrapped), and `foreign` is any non-Aerospike error (with an optional
  unwrap chain, `nilE` when it has none).  `*Node` is `Option Nat`
  (a node identity, or nil).  Stack frames are runtime introspection and
  carry no claim-relevant content, so they are not modelled.
* Result codes form a closed enum in the `types` package, which is not
  among the provided sources; only distinctness of codes matters here, so
  they are distinct integers.
-/

abbrev ResultCode := Int

/-- `types.COMMON_ERROR`: client-side common error code (distinct integer;
the numeric value lives in the types package, outside the provided sources). -/
def COMMON_ERROR : ResultCode := -1

/-- `types.INVALID_CLUSTER_PARTITION_MAP` (distinct integer; the numeric
value lives in the types package, outside the provided sources). -/
def INVALID_CLUSTER_PARTITION_MAP : ResultCode := -13

/-- Go `error` interface values as they occur in this package. -/
inductive GoError where
  | nilE : GoError
  | ae (resultCode : ResultCode) (inDoubt : Bool) (iteration : Int)
      (node : Option Nat) (msg : String) (wrapped : GoError) : GoError
  | foreign (id : Nat) (inner : GoError) : GoError
deriving DecidableEq

/-- `e` is a value of the library's `Error` interface (implemented only by
`*AerospikeError`), or the nil interface. -/
def isErrVal : GoError → Bool
  | GoError.foreign _ _ => false
  | _ => true

/-- The first `*AerospikeError` found by `errors.As` when walking `e`'s
unwrap chain (`errors.As(ase.wrapped, &ae)` in `Matches`): the walk skips
non-Aerospike errors by unwrapping them. Returns `nilE` when none is found. -/
def firstAE : GoError → GoError
  | GoError.foreign _ inner => firstAE inner
  | e => e

theorem sizeOf_firstAE_le (e : GoError) : sizeOf (firstAE e) ≤ sizeOf e := by
  induction e with
  | nilE => simp [firstAE]
  | ae rc d it n m w _ => simp [firstAE]
  | foreign i inner ih =>
    have hs : sizeOf (GoError.foreign i inner) = 1 + sizeOf i + sizeOf inner := by
      simp
    simp only [firstAE]
    omega

/-- `AerospikeError.Matches`, translated from error.go: nil receiver or an
empty code list yields false; otherwise the receiver's ResultCode is compared
against each code, and on no match the walk recurses into the first
`*AerospikeError` of the wrapped chain (`errors.As`); if the chain holds no
`*AerospikeError` the result is false (the `foreign` clause below is that
fall-through — `Matches` is a method of `*AerospikeError`, so a `foreign`
receiver never occurs). -/
def Matches : GoError → List ResultCode → Bool
  | GoError.nilE, _ => false
  | GoError.foreign _ _, _ => false
  | GoError.ae rc _ _ _ _ w, rcs =>
      if rcs.isEmpty then false
      else if rcs.contains rc then true
      else Matches (firstAE w) rcs
termination_by e _ => sizeOf e
decreasing_by
  simp_wf
  have := sizeOf_firstAE_le w
  omega

/-- `AerospikeError.Unwrap`: the wrapped error, nil otherwise. -/
def Unwrap : GoError → GoError
  | GoError.ae _ _ _ _ _ w => w
  | _ => GoError.nilE

/-- `AerospikeError.IsInDoubt`. -/
def IsInDoubt : GoError → Bool
  | GoError.ae _ d _ _ _ _ => d
  | _ => false

/-- `AerospikeError.setInDoubt`, translated from error.go: sets InDoubt on
the receiver when the command is not a read and the bytes were sent, and
returns the receiver. -/
def setInDoubt : GoError → Bool → Bool → GoError
  | GoError.ae rc d it n m w, isRead, commandWasSent =>
      if !isRead && commandWasSent then GoError.ae rc true it n m w
      else GoError.ae rc d it n m w
  | e, _, _ => e

/-- `types.ResultCodeToString` is in the types package, outside the provided
sources; `newError` only uses it for a default message, whose content no
claim inspects.  Modelled from the spec: every code has a default
human-readable description. -/
def resultCodeToString (rc : ResultCode) : String :=
  "result code " ++ toString rc

/-- `newError`, translated from error.go: default message from the result
code when none is given, messages joined with a space, no wrapped error. -/
def newError (code : ResultCode) (messages : List String) : GoError :=
  let messages := if messages.isEmpty then [resultCodeToString code] else messages
  GoError.ae code false 0 none (String.intercalate " " messages) GoError.nilE

/-- `newCommonError`, translated from error.go: a COMMON_ERROR wrapping `e`. -/
def newCommonError (e : GoError) : GoError :=
  match newError COMMON_ERROR [] with
  | GoError.ae rc d it n m _ => GoError.ae rc d it n m e
  | x => x

/-- `chainErrors`, translated from error.go.  The outer argument has the
library's `Error` interface type, implemented only by `*AerospikeError` and
`*constAerospikeError` (both copied by the type switch before being wrapped);
the `foreign` outer clause is unreachable in the source (the type switch
would leave `ae` nil and the subsequent field write would panic) and is given
the identity-on-outer fall-through only for totality. -/
def chainErrors : GoError → GoError → GoError
  | GoError.nilE, GoError.nilE => GoError.nilE
  | outer, GoError.nilE => outer
  | GoError.nilE, inner =>
      if isErrVal inner then inner else newCommonError inner
  | GoError.ae rc d it n m _, inner => GoError.ae rc d it n m inner
  | GoError.foreign i inr, _ => GoError.foreign i inr

/-- The result codes of `e` and of every `*AerospikeError` in its unwrap
chain (non-Aerospike links carry no code and are walked through). -/
def chainCodes : GoError → List ResultCode
  | GoError.nilE => []
  | GoError.foreign _ inner => chainCodes inner
  | GoError.ae rc _ _ _ _ w => rc :: chainCodes w

theorem chainCodes_firstAE (e : GoError) : chainCodes (firstAE e) = chainCodes e := by
  induction e with
  | nilE => rfl
  | ae rc d it n m w _ => rfl
  | foreign i inner ih => simp only [firstAE, chainCodes]; exact ih

theorem isErrVal_firstAE (e : GoError) : isErrVal (firstAE e) = true := by
  induction e with
  | nilE => rfl
  | ae rc d it n m w _ => rfl
  | foreign i inner ih => simpa [firstAE] using ih

theorem matches_iff_chainCodes (e : GoError) (he : isErrVal e = true)
    (rcs : List ResultCode) (hrcs : rcs ≠ []) :
    Matches e rcs = true ↔ ∃ c ∈ chainCodes e, c ∈ rcs := by
  match e with
  | GoError.nilE => simp [Matches, chainCodes]
  | GoError.foreign _ _ => simp [isErrVal] at he
  | GoError.ae rc d it n m w =>
    have ih := matches_iff_chainCodes (firstAE w) (isErrVal_firstAE w) rcs hrcs
    rw [Matches]
    have hne : rcs.isEmpty = false := by
      cases rcs with
      | nil => exact absurd rfl hrcs
      | cons a l => rfl
    rw [hne, chainCodes_firstAE] at *
    by_cases hc : rcs.contains rc
    · simp only [hne, hc, Bool.false_eq_true, if_false, if_true]
      constructor
      · intro _
        exact ⟨rc, by simp [chainCodes], List.elem_iff.mp hc⟩
      · intro _; trivial
    · simp only [hne, Bool.false_eq_true, if_false]
      rw [if_neg hc, ih]
      constructor
      · rintro ⟨c, hcm, hcr⟩
        refine ⟨c, ?_, hcr⟩
        simp only [chainCodes, List.mem_cons]
        exact Or.inr hcm
      · rintro ⟨c, hcm, hcr⟩
        simp only [chainCodes, List.mem_cons] at hcm
        rcases hcm with h | h
        · subst h
          exact absurd (List.elem_iff.mpr hcr) hc
        · exact ⟨c, h, hcr⟩
termination_by sizeOf e
decreasing_by
  simp_wf
  have := sizeOf_firstAE_le w
  omega

/-!
Partition map model, translated from partitions.go.
-/

/-- `Partitions`, translated from partitions.go: a `[replica][partition]`
grid of node references, the strong-consistency flag, and per-partition
regime counters. -/
structure Partitions where
  Replicas : List (List (Option Nat))
  SCMode : Bool
  regimes : List Int
deriving DecidableEq

/-- The fixed per-namespace partition count referenced by partitions.go.
Modelled from the spec: the constant itself is defined outside the provided
sources; the spec fixes it as the same constant for every namespace,
e.g. 4096. -/
def _PARTITIONS : Nat := 4096

/-- `newPartitions`, translated from partitions.go: `replicaCount` rows of
`partitionCount` nil node slots, and `partitionCount` zero regimes. -/
def newPartitions (partitionCount replicaCount : Nat) (cpMode : Bool) : Partitions :=
  { Replicas := List.replicate replicaCount (List.replicate partitionCount none)
    SCMode := cpMode
    regimes := List.replicate partitionCount 0 }

/-- `Partitions.setReplicaCount`, translated from partitions.go: extend with
fresh `_PARTITIONS`-sized nil rows up to the requested count, or truncate to
the first `replicaCount` rows. -/
def setReplicaCount (p : Partitions) (replicaCount : Nat) : Partitions :=
  if p.Replicas.length < replicaCount then
    { p with Replicas :=
        p.Replicas ++
          List.replicate (replicaCount - p.Replicas.length) (List.replicate _PARTITIONS none) }
  else
    { p with Replicas := p.Replicas.take replicaCount }

/-- The nil-slot indices of one replica row, in index order (the inner
`for pIndex, node := range partitionNodes` collection loop of `validate`),
starting from index `i`. -/
def nilIndices : List (Option Nat) → Nat → List Nat
  | [], _ => []
  | none :: rest, i => i :: nilIndices rest (i + 1)
  | some _ :: rest, i => nilIndices rest (i + 1)

/-- The `masterNodePartitionNotDefined` entries contributed by one
namespace: nil slots of the row at replica index 0. -/
def masterNil (p : Partitions) : List Nat :=
  match p.Replicas with
  | [] => []
  | row :: _ => nilIndices row 0

/-- The `replicaNodePartitionNotDefined` entries contributed by one
namespace: nil slots of the rows at replica index greater than 0, in row
order. -/
def replicaNil (p : Partitions) : List Nat :=
  ((p.Replicas.drop 1).map (fun row => nilIndices row 0)).flatten

/-- Message of the wrong-regime-count error in `validate`. -/
def regimesMsg (nsName : String) (found : Nat) : String :=
  "Wrong number of regimes for namespace `" ++ nsName ++ "`. Must be " ++
    toString _PARTITIONS ++ ", but found " ++ toString found ++ "."

/-- Message of the wrong-partition-count error in `validate`. -/
def rowLenMsg (nsName : String) (replica : Nat) (found : Nat) : String :=
  "Wrong number of partitions for namespace `" ++ nsName ++ "`, replica `" ++
    toString replica ++ "`. Must be " ++ toString _PARTITIONS ++ ", but found " ++
    toString found ++ "."

/-- Message of the missing-master aggregation error in `validate`. -/
def masterMsg (nsName : String) (count : Nat) : String :=
  "Master partition nodes not defined for namespace `" ++ nsName ++ "`: " ++
    toString count ++ " out of " ++ toString _PARTITIONS

/-- Message of the missing-replica aggregation error in `validate`. -/
def replicaMsg (nsName : String) (count : Nat) : String :=
  "Replica partition nodes not defined for namespace `" ++ nsName ++ "`: " ++
    toString count

/-- The structural (length) errors one namespace chains onto `errs` in the
collection loop of `validate`: the regime-count check, then the
partition-count check per replica row in row order. -/
def lengthErrs (nsName : String) (p : Partitions) (errs : GoError) : GoError :=
  let errs :=
    if p.regimes.length ≠ _PARTITIONS then
      chainErrors (newError COMMON_ERROR [regimesMsg nsName p.regimes.length]) errs
    else errs
  p.Replicas.enum.foldl
    (fun e x =>
      if x.2.length ≠ _PARTITIONS then
        chainErrors (newError COMMON_ERROR [rowLenMsg nsName x.1 x.2.length]) e
      else e)
    errs

/-- The accumulator of `validate`'s collection loop: the two
namespace-to-undefined-partition-list maps and the chained structural
errors.  The Go maps appear as association lists; `sync.Map` iteration
order is unspecified, so list order stands in for it (no claim below
depends on the order). -/
structure VAcc where
  masterND : List (String × List Nat)
  replicaND : List (String × List Nat)
  errs : GoError
deriving DecidableEq

/-- One iteration of `validate`'s collection loop over a namespace: chain
the length errors, and record the nil master/replica slots (a Go map key
exists exactly when at least one index was appended to it). -/
def vStep (acc : VAcc) (nsp : String × Partitions) : VAcc :=
  let m := masterNil nsp.2
  let r := replicaNil nsp.2
  { masterND := if m.isEmpty then acc.masterND else acc.masterND ++ [(nsp.1, m)]
    replicaND := if r.isEmpty then acc.replicaND else acc.replicaND ++ [(nsp.1, r)]
    errs := lengthErrs nsp.1 nsp.2 acc.errs }

/-- The state after `validate`'s collection loop over the whole map. -/
def vAcc (pm : List (String × Partitions)) : VAcc :=
  pm.foldl vStep { masterND := [], replicaND := [], errs := GoError.nilE }

/-- The value of `ErrInvalidPartitionMap.err()`: the shared constant error
instance of `types.INVALID_CLUSTER_PARTITION_MAP` (error.go), copied with a
nil wrapped error. -/
def ErrInvalidPartitionMapErr : GoError :=
  GoError.ae INVALID_CLUSTER_PARTITION_MAP false 0 none
    ("Partition map errors normally occur when the cluster has partitioned due to network anomaly or node crash, or is not configured properly. Refer to https://www.aerospike.com/docs/operations/configure for more information.")
    GoError.nilE

/-- `partitionMap.validate`, translated from partitions.go: run the
collection loop, and on any structural error or any undefined master or
replica slot, chain one aggregation error per namespace entry of each map
and top the chain with `ErrInvalidPartitionMap.err()`; otherwise nil. -/
def validate (pm : List (String × Partitions)) : GoError :=
  let acc := vAcc pm
  if acc.errs ≠ GoError.nilE ∨ acc.masterND ≠ [] ∨ acc.replicaND ≠ [] then
    let errs := acc.masterND.foldl
      (fun e nsl => chainErrors (newError COMMON_ERROR [masterMsg nsl.1 nsl.2.length]) e)
      acc.errs
    let errs := acc.replicaND.foldl
      (fun e nsl => chainErrors (newError COMMON_ERROR [replicaMsg nsl.1 nsl.2.length]) e)
      errs
    chainErrors ErrInvalidPartitionMapErr errs
  else GoError.nilE

/-!
Basic facts about the error constructors and chains.
-/

theorem newError_ne_nilE (c : ResultCode) (msgs : List String) :
    newError c msgs ≠ GoError.nilE := by
  simp [newError]

theorem chainErrors_ne_nilE (outer inner : GoError) (h : outer ≠ GoError.nilE) :
    chainErrors outer inner ≠ GoError.nilE := by
  cases outer with
  | nilE => exact absurd rfl h
  | ae rc d it n m w => cases inner <;> simp [chainErrors]
  | foreign i inr => cases inner <;> simp [chainErrors]

theorem foldl_preserve_ne {α : Type} (f : GoError → α → GoError)
    (hf : ∀ e a, e ≠ GoError.nilE → f e a ≠ GoError.nilE) (l : List α) (e : GoError)
    (he : e ≠ GoError.nilE) : l.foldl f e ≠ GoError.nilE := by
  induction l generalizing e with
  | nil => exact he
  | cons a l ih => exact ih (f e a) (hf e a he)

theorem foldl_chain_nilE_iff {α : Type} (P : α → Prop) [DecidablePred P]
    (mk : α → GoError) (hmk : ∀ a, mk a ≠ GoError.nilE) (l : List α) (e : GoError) :
    l.foldl (fun e a => if P a then chainErrors (mk a) e else e) e = GoError.nilE
      ↔ e = GoError.nilE ∧ ∀ a ∈ l, ¬ P a := by
  induction l generalizing e with
  | nil => simp
  | cons a l ih =>
    simp only [List.foldl_cons]
    by_cases hp : P a
    · rw [if_pos hp]
      constructor
      · intro h
        exact absurd h
          (foldl_preserve_ne _
            (fun e' a' he' => by
              by_cases hq : P a'
              · rw [if_pos hq]; exact chainErrors_ne_nilE _ _ (hmk a')
              · rw [if_neg hq]; exact he')
            l _ (chainErrors_ne_nilE _ _ (hmk a)))
      · rintro ⟨_, hall⟩
        exact absurd hp (hall a (by simp))
    · rw [if_neg hp, ih]
      constructor
      · rintro ⟨he, hall⟩
        refine ⟨he, fun b hb => ?_⟩
        rcases List.mem_cons.mp hb with h | h
        · exact h ▸ hp
        · exact hall b h
      · rintro ⟨he, hall⟩
        exact ⟨he, fun b hb => hall b (List.mem_cons_of_mem a hb)⟩

theorem forall_enum_iff {α : Type} (l : List α) (Q : α → Prop) :
    (∀ x ∈ l.enum, Q x.2) ↔ ∀ b ∈ l, Q b := by
  constructor
  · intro h b hb
    obtain ⟨i, hi⟩ := List.get_of_mem hb
    exact h (i, b) (by simpa using List.mem_enum_iff_getElem?.mpr (by simpa using hi))
  · intro h x hx
    exact h x.2 (List.snd_mem_of_mem_enum hx)

theorem lengthErrs_nilE_iff (ns : String) (p : Partitions) (errs : GoError) :
    lengthErrs ns p errs = GoError.nilE ↔
      errs = GoError.nilE ∧ p.regimes.length = _PARTITIONS ∧
        ∀ row ∈ p.Replicas, row.length = _PARTITIONS := by
  unfold lengthErrs
  rw [foldl_chain_nilE_iff (fun x : Nat × List (Option Nat) => x.2.length ≠ _PARTITIONS)
    (fun x => newError COMMON_ERROR [rowLenMsg ns x.1 x.2.length])
    (fun x => newError_ne_nilE _ _) p.Replicas.enum]
  rw [forall_enum_iff p.Replicas (fun row => ¬ row.length ≠ _PARTITIONS)]
  by_cases hr : p.regimes.length = _PARTITIONS
  · rw [if_neg (by simpa using hr)]
    simp [hr]
  · rw [if_pos hr]
    constructor
    · rintro ⟨h, _⟩
      exact absurd h (chainErrors_ne_nilE _ _ (newError_ne_nilE _ _))
    · rintro ⟨_, h, _⟩
      exact absurd h hr

/-!
Characterization of the collection loop and of `validate`.
-/

/-- The `masterNodePartitionNotDefined` map after the collection loop: one
entry per namespace whose master row has at least one nil slot. -/
def vMasters (pm : List (String × Partitions)) : List (String × List Nat) :=
  (pm.map (fun nsp => (nsp.1, masterNil nsp.2))).filter (fun x => !x.2.isEmpty)

/-- The `replicaNodePartitionNotDefined` map after the collection loop. -/
def vReplicas (pm : List (String × Partitions)) : List (String × List Nat) :=
  (pm.map (fun nsp => (nsp.1, replicaNil nsp.2))).filter (fun x => !x.2.isEmpty)

theorem foldl_vStep_errs (pm : List (String × Partitions)) (acc : VAcc) :
    (pm.foldl vStep acc).errs = GoError.nilE ↔
      acc.errs = GoError.nilE ∧ ∀ nsp ∈ pm, nsp.2.regimes.length = _PARTITIONS ∧
        ∀ row ∈ nsp.2.Replicas, row.length = _PARTITIONS := by
  induction pm generalizing acc with
  | nil => simp
  | cons nsp pm ih =>
    simp only [List.foldl_cons]
    rw [ih]
    rw [show (vStep acc nsp).errs = lengthErrs nsp.1 nsp.2 acc.errs from rfl]
    rw [lengthErrs_nilE_iff]
    simp only [List.forall_mem_cons]
    tauto

theorem foldl_vStep_masterND (pm : List (String × Partitions)) (acc : VAcc) :
    (pm.foldl vStep acc).masterND = acc.masterND ++ vMasters pm := by
  induction pm generalizing acc with
  | nil => simp [vMasters]
  | cons nsp pm ih =>
    simp only [List.foldl_cons]
    rw [ih]
    by_cases h : (masterNil nsp.2).isEmpty
    · simp [vStep, vMasters, h]
    · simp [vStep, vMasters, h]

theorem foldl_vStep_replicaND (pm : List (String × Partitions)) (acc : VAcc) :
    (pm.foldl vStep acc).replicaND = acc.replicaND ++ vReplicas pm := by
  induction pm generalizing acc with
  | nil => simp [vReplicas]
  | cons nsp pm ih =>
    simp only [List.foldl_cons]
    rw [ih]
    by_cases h : (replicaNil nsp.2).isEmpty
    · simp [vStep, vReplicas, h]
    · simp [vStep, vReplicas, h]

theorem vMasters_eq_nil_iff (pm : List (String × Partitions)) :
    vMasters pm = [] ↔ ∀ nsp ∈ pm, masterNil nsp.2 = [] := by
  simp only [vMasters, List.filter_eq_nil_iff, List.mem_map]
  constructor
  · rintro h ⟨a, b⟩ hmem
    have := h (a, masterNil b) ⟨(a, b), hmem, rfl⟩
    simpa using this
  · rintro h x ⟨⟨a, b⟩, hmem, rfl⟩
    simpa using h (a, b) hmem

theorem vReplicas_eq_nil_iff (pm : List (String × Partitions)) :
    vReplicas pm = [] ↔ ∀ nsp ∈ pm, replicaNil nsp.2 = [] := by
  simp only [vReplicas, List.filter_eq_nil_iff, List.mem_map]
  constructor
  · rintro h ⟨a, b⟩ hmem
    have := h (a, replicaNil b) ⟨(a, b), hmem, rfl⟩
    simpa using this
  · rintro h x ⟨⟨a, b⟩, hmem, rfl⟩
    simpa using h (a, b) hmem

theorem nilIndices_eq_nil_iff (row : List (Option Nat)) :
    ∀ i : Nat, nilIndices row i = [] ↔ ∀ s ∈ row, s ≠ none := by
  induction row with
  | nil => simp [nilIndices]
  | cons s rest ih =>
    intro i
    cases s with
    | none => simp [nilIndices]
    | some v => simp [nilIndices, ih]

/-- Structural soundness of one namespace: the conditions under which it
contributes nothing to `validate`'s error aggregation. -/
def nsOK (p : Partitions) : Prop :=
  p.regimes.length = _PARTITIONS ∧
    ∀ row ∈ p.Replicas, row.length = _PARTITIONS ∧ ∀ s ∈ row, s ≠ none

theorem masterReplicaNil_iff (p : Partitions) :
    (masterNil p = [] ∧ replicaNil p = []) ↔
      ∀ row ∈ p.Replicas, ∀ s ∈ row, s ≠ none := by
  cases hr : p.Replicas with
  | nil => simp [masterNil, replicaNil, hr]
  | cons row rest =>
    simp only [masterNil, replicaNil, hr, List.drop_succ_cons, List.drop_zero,
      List.flatten_eq_nil_iff, List.forall_mem_cons, nilIndices_eq_nil_iff]
    constructor
    · rintro ⟨h0, hrest⟩
      exact ⟨h0, fun r hrm => (nilIndices_eq_nil_iff r 0).mp
        (hrest _ (List.mem_map_of_mem _ hrm))⟩
    · rintro ⟨h0, hrest⟩
      refine ⟨h0, fun x hx => ?_⟩
      obtain ⟨r, hrm, rfl⟩ := List.mem_map.mp hx
      exact (nilIndices_eq_nil_iff r 0).mpr (hrest r hrm)

theorem vAcc_all_iff (pm : List (String × Partitions)) :
    ((vAcc pm).errs = GoError.nilE ∧ (vAcc pm).masterND = [] ∧ (vAcc pm).replicaND = [])
      ↔ ∀ nsp ∈ pm, nsOK nsp.2 := by
  rw [vAcc, foldl_vStep_errs, foldl_vStep_masterND, foldl_vStep_replicaND]
  simp only [List.nil_append, vMasters_eq_nil_iff, vReplicas_eq_nil_iff, true_and]
  constructor
  · rintro ⟨hlen, hm, hr⟩ nsp hmem
    obtain ⟨hreg, hrows⟩ := hlen nsp hmem
    have hnn := (masterReplicaNil_iff nsp.2).mp ⟨hm nsp hmem, hr nsp hmem⟩
    exact ⟨hreg, fun row hrow => ⟨hrows row hrow, hnn row hrow⟩⟩
  · intro h
    refine ⟨fun nsp hmem => ⟨(h nsp hmem).1, fun row hrow => ((h nsp hmem).2 row hrow).1⟩,
      fun nsp hmem => ?_, fun nsp hmem => ?_⟩
    · exact ((masterReplicaNil_iff nsp.2).mpr (fun row hrow => ((h nsp hmem).2 row hrow).2)).1
    · exact ((masterReplicaNil_iff nsp.2).mpr (fun row hrow => ((h nsp hmem).2 row hrow).2)).2

theorem validate_nilE_iff (pm : List (String × Partitions)) :
    validate pm = GoError.nilE ↔ ∀ nsp ∈ pm, nsOK nsp.2 := by
  rw [← vAcc_all_iff]
  unfold validate
  by_cases hc : (vAcc pm).errs ≠ GoError.nilE ∨ (vAcc pm).masterND ≠ [] ∨
      (vAcc pm).replicaND ≠ []
  · rw [if_pos hc]
    constructor
    · intro h
      exact absurd h (chainErrors_ne_nilE _ _ (by simp [ErrInvalidPartitionMapErr]))
    · intro h
      rcases hc with h1 | h1 | h1 <;> tauto
  · rw [if_neg hc]
    push_neg at hc
    simp only [true_iff]
    exact hc

theorem matches_chain_invalid (inner : GoError) :
    Matches (chainErrors ErrInvalidPartitionMapErr inner)
      [INVALID_CLUSTER_PARTITION_MAP] = true := by
  cases inner <;> simp [chainErrors, ErrInvalidPartitionMapErr, Matches]

theorem validate_ne_matches_invalid (pm : List (String × Partitions))
    (h : validate pm ≠ GoError.nilE) :
    Matches (validate pm) [INVALID_CLUSTER_PARTITION_MAP] = true := by
  unfold validate at *
  by_cases hc : (vAcc pm).errs ≠ GoError.nilE ∨ (vAcc pm).masterND ≠ [] ∨
      (vAcc pm).replicaND ≠ []
  · rw [if_pos hc]
    exact matches_chain_invalid _
  · rw [if_neg hc] at h
    exact absurd rfl h

/-!
Concrete partition maps used by the validate claims.
-/

theorem mem_of_getElem?_eq {α : Type} (l : List α) (i : Nat) (x : α)
    (h : l[i]? = some x) : x ∈ l := by
  have hi : i < l.length := by
    by_contra hc
    simp [List.getElem?_eq_none (by omega : l.length ≤ i)] at h
  have hx : l[i] = x := by simpa [List.getElem?_eq_getElem hi] using h
  exact hx ▸ List.getElem_mem hi

theorem nilIndices_replicate_none_length (n : Nat) :
    ∀ i, (nilIndices (List.replicate n none) i).length = n := by
  induction n with
  | zero => intro i; simp [nilIndices]
  | succ k ih => intro i; simp [List.replicate_succ, nilIndices, ih]

/-- A namespace entry whose Partitions has a well-sized regimes slice but no
replica rows at all. -/
def emptyReplicasPartitions : Partitions :=
  { Replicas := [], SCMode := false, regimes := List.replicate _PARTITIONS 0 }

/-- A partition map holding only `emptyReplicasPartitions`. -/
def pmNoRows : List (String × Partitions) := [("ns", emptyReplicasPartitions)]

/-- A fully-populated single-row Partitions: every master slot resolves to
node 7. -/
def fullPartitions : Partitions :=
  { Replicas := [List.replicate _PARTITIONS (some 7)]
    SCMode := true
    regimes := List.replicate _PARTITIONS 1 }

/-- A partition map holding only `fullPartitions`. -/
def pmFull : List (String × Partitions) := [("ns", fullPartitions)]

theorem validate_pmFull_nilE : validate pmFull = GoError.nilE := by
  rw [validate_nilE_iff]
  rintro nsp hmem
  simp only [pmFull, List.mem_singleton] at hmem
  subst hmem
  refine ⟨by simp [fullPartitions], ?_⟩
  intro row hrow
  simp only [fullPartitions, List.mem_singleton] at hrow
  subst hrow
  refine ⟨by simp, ?_⟩
  intro s hs
  rw [List.eq_of_mem_replicate hs]
  simp

/-- A Partitions whose master row is fine but whose single non-master row
holds one nil slot. -/
def badReplicaPartitions : Partitions :=
  { Replicas := [[some 1], [none]], SCMode := false, regimes := [] }

/-- A partition map holding only `badReplicaPartitions`. -/
def pmBadReplica : List (String × Partitions) := [("ns", badReplicaPartitions)]

/-- C1 counterexample: a partition map on which `validate()` returns nil
whose namespace has no replica rows at all — there is no node (much less a
non-nil one) at replica-index 0 for partition index 0, because the Replicas
grid is empty; `validate` only inspects rows that exist. -/
theorem claimC1_counterexample :
    validate pmNoRows = GoError.nilE ∧
      ¬ ∃ row : List (Option Nat), ∃ nd : Nat,
        emptyReplicasPartitions.Replicas[0]? = some row ∧ row[0]? = some (some nd) := by
  constructor
  · rw [validate_nilE_iff]
    rintro nsp hmem
    simp only [pmNoRows, List.mem_singleton] at hmem
    subst hmem
    exact ⟨by simp [emptyReplicasPartitions], by simp [emptyReplicasPartitions]⟩
  · rintro ⟨row, nd, hrow, _⟩
    simp [emptyReplicasPartitions] at hrow

/-- C1 (amended): for every partition map on which `validate()` returns nil,
every namespace's Partitions that has at least one replica row has a master
row of the fixed partition count with a non-nil node at every partition
index.  (The amendment restricts the claim to namespaces whose Replicas grid
is non-empty: `validate` accepts an empty grid, see the counterexample.) -/
theorem claimC1_amended (pm : List (String × Partitions))
    (h : validate pm = GoError.nilE) :
    ∀ nsp ∈ pm, ∀ row : List (Option Nat), nsp.2.Replicas[0]? = some row →
      row.length = _PARTITIONS ∧ ∀ i < _PARTITIONS, ∃ nd : Nat, row[i]? = some (some nd) := by
  rw [validate_nilE_iff] at h
  intro nsp hmem row hrow
  obtain ⟨_, hrows⟩ := h nsp hmem
  obtain ⟨hlen, hnn⟩ := hrows row (mem_of_getElem?_eq _ _ _ hrow)
  refine ⟨hlen, fun i hi => ?_⟩
  have hil : i < row.length := by omega
  have hne := hnn row[i] (List.getElem_mem hil)
  cases hs : row[i] with
  | none => rw [hs] at hne; exact absurd rfl hne
  | some nd => exact ⟨nd, by rw [List.getElem?_eq_getElem hil, hs]⟩

/-- C1 witness: the amended theorem applied to the fully-populated map. -/
theorem claimC1_witness :
    validate pmFull = GoError.nilE ∧
      ∃ nd : Nat, (List.replicate _PARTITIONS (some 7) : List (Option Nat))[5]? =
        some (some nd) :=
  ⟨validate_pmFull_nilE,
    (claimC1_amended pmFull validate_pmFull_nilE ("ns", fullPartitions) (by simp [pmFull])
      (List.replicate _PARTITIONS (some 7)) (by simp [fullPartitions])).2 5
      (by norm_num [_PARTITIONS])⟩

/-- C10: `validate()` returns nil only under conditions strictly stronger
than the master-only criterion — for every namespace the regimes length and
every replica row's length equal the fixed partition constant and every node
slot in every replica row (non-master rows included) is non-nil; and a
single nil slot in a non-master row alone already makes `validate()` return
a non-nil error. -/
theorem claimC10_validate_strong :
    (∀ pm : List (String × Partitions), validate pm = GoError.nilE →
        ∀ nsp ∈ pm, nsp.2.regimes.length = _PARTITIONS ∧
          ∀ row ∈ nsp.2.Replicas, row.length = _PARTITIONS ∧ ∀ s ∈ row, s ≠ none) ∧
    (∀ (pm : List (String × Partitions)) (nsp : String × Partitions), nsp ∈ pm →
        ∀ r : Nat, 1 ≤ r → ∀ row : List (Option Nat), nsp.2.Replicas[r]? = some row →
          none ∈ row → validate pm ≠ GoError.nilE) := by
  constructor
  · intro pm h nsp hmem
    exact (validate_nilE_iff pm).mp h nsp hmem
  · intro pm nsp hmem r _ row hrow hnil hval
    have hok := (validate_nilE_iff pm).mp hval nsp hmem
    exact (hok.2 row (mem_of_getElem?_eq _ _ _ hrow)).2 none hnil rfl

/-- C10 witness: the first part applied to the fully-populated map, the
second to a map whose replica row 1 holds a nil slot. -/
theorem claimC10_witness :
    fullPartitions.regimes.length = _PARTITIONS ∧
      validate pmBadReplica ≠ GoError.nilE :=
  ⟨(claimC10_validate_strong.1 pmFull validate_pmFull_nilE ("ns", fullPartitions)
      (by simp [pmFull])).1,
    claimC10_validate_strong.2 pmBadReplica ("ns", badReplicaPartitions)
      (by simp [pmBadReplica]) 1 (by norm_num) [none]
      (by simp [badReplicaPartitions]) (by simp)⟩

/-- The single-namespace map of the C6 scenario: 4096 partitions, 2 replica
rows, every node slot nil. -/
def pm4096 : List (String × Partitions) := [("test", newPartitions 4096 2 false)]

/-- C6: validating a map holding an empty Partitions for 4096 partitions and
2 replicas returns a non-nil aggregated error that matches the
invalid-partition-map result code, and the missing-master collection holds
exactly 4096 partition entries for that namespace (the count reported by the
aggregation message). -/
theorem claimC6_empty4096 :
    validate pm4096 ≠ GoError.nilE ∧
      Matches (validate pm4096) [INVALID_CLUSTER_PARTITION_MAP] = true ∧
      (vAcc pm4096).masterND.map (fun x => (x.1, x.2.length)) = [("test", 4096)] := by
  have hne : validate pm4096 ≠ GoError.nilE := by
    intro hval
    have hall := (validate_nilE_iff pm4096).mp hval
    have hok := hall ("test", newPartitions 4096 2 false) (by simp [pm4096])
    have hrow : (List.replicate 4096 (none : Option Nat)) ∈
        (newPartitions 4096 2 false).Replicas := by
      rw [show (newPartitions 4096 2 false).Replicas =
        List.replicate 2 (List.replicate 4096 none) from rfl]
      exact List.mem_replicate.mpr ⟨by norm_num, rfl⟩
    have hnn := (hok.2 _ hrow).2 none (List.mem_replicate.mpr ⟨by norm_num, rfl⟩)
    exact hnn rfl
  refine ⟨hne, validate_ne_matches_invalid pm4096 hne, ?_⟩
  have hm : (vAcc pm4096).masterND = vMasters pm4096 := by
    rw [vAcc, foldl_vStep_masterND]
    simp
  rw [hm]
  have hmn : masterNil (newPartitions 4096 2 false) =
      nilIndices (List.replicate 4096 none) 0 := rfl
  have hlen : (masterNil (newPartitions 4096 2 false)).length = 4096 := by
    rw [hmn, nilIndices_replicate_none_length]
  have hnotempty : (masterNil (newPartitions 4096 2 false)).isEmpty = false := by
    cases hml : masterNil (newPartitions 4096 2 false) with
    | nil => rw [hml] at hlen; simp at hlen
    | cons a l => rfl
  simp [vMasters, pm4096, hnotempty, hlen]

/-!
Claims about the error model.
-/

/-- C2: `setInDoubt` sets the InDoubt flag to true exactly when the command
is write-class (`isRead` false) and the command bytes were confirmed sent;
for a read-class command the flag is never set, whatever the transmission
state. -/
theorem claimC2_setInDoubt (rc : ResultCode) (d : Bool) (it : Int) (n : Option Nat)
    (m : String) (w : GoError) (isRead commandWasSent : Bool) :
    (d = false →
      (IsInDoubt (setInDoubt (GoError.ae rc d it n m w) isRead commandWasSent) = true ↔
        isRead = false ∧ commandWasSent = true)) ∧
    (isRead = true →
      IsInDoubt (setInDoubt (GoError.ae rc d it n m w) isRead commandWasSent) = d) := by
  constructor
  · rintro rfl
    cases isRead <;> cases commandWasSent <;> simp [setInDoubt, IsInDoubt]
  · rintro rfl
    cases commandWasSent <;> simp [setInDoubt, IsInDoubt]

/-- C2 witness: a write-class sent command sets the flag; a read-class sent
command does not. -/
theorem claimC2_witness :
    (IsInDoubt (setInDoubt (GoError.ae 0 false 0 none "" GoError.nilE) false true) = true ↔
      false = false ∧ true = true) ∧
    IsInDoubt (setInDoubt (GoError.ae 0 false 0 none "" GoError.nilE) true true) = false :=
  ⟨(claimC2_setInDoubt 0 false 0 none "" GoError.nilE false true).1 rfl,
   (claimC2_setInDoubt 0 false 0 none "" GoError.nilE true true).2 rfl⟩

/-- C3: for every Error-interface value and non-empty code list, `Matches`
returns true iff some given code equals the ResultCode of the error or of
some error in its wrap chain; on a nil error it returns false. -/
theorem claimC3_matches (e : GoError) (he : isErrVal e = true)
    (rcs : List ResultCode) (hrcs : rcs ≠ []) :
    (Matches e rcs = true ↔ ∃ c ∈ chainCodes e, c ∈ rcs) ∧
      Matches GoError.nilE rcs = false :=
  ⟨matches_iff_chainCodes e he rcs hrcs, by simp [Matches]⟩

/-- C3 witness: a two-link chain matched against the inner link's code. -/
theorem claimC3_witness :
    (Matches (GoError.ae 5 false 0 none "a" (GoError.ae 7 false 0 none "b" GoError.nilE))
        [7] = true ↔
      ∃ c ∈ chainCodes
        (GoError.ae 5 false 0 none "a" (GoError.ae 7 false 0 none "b" GoError.nilE)),
        c ∈ [7]) ∧
      Matches GoError.nilE [7] = false :=
  claimC3_matches
    (GoError.ae 5 false 0 none "a" (GoError.ae 7 false 0 none "b" GoError.nilE))
    rfl [7] (by simp)

/-- C4: chaining `(nil, inner)` returns `inner` unchanged for every
Error-interface value `inner`; chaining `(outer, nil)` returns `outer`
unchanged; and chaining two non-nil Aerospike errors yields an error whose
`Unwrap` is the inner error and whose `Matches` recognizes both the outer
and the inner result code. -/
theorem claimC4_chainErrors :
    (∀ inner : GoError, isErrVal inner = true →
        chainErrors GoError.nilE inner = inner) ∧
    (∀ outer : GoError, chainErrors outer GoError.nilE = outer) ∧
    (∀ (orc : ResultCode) (od : Bool) (oit : Int) (onn : Option Nat) (om : String)
        (ow : GoError) (irc : ResultCode) (idb : Bool) (iit : Int) (inn : Option Nat)
        (im : String) (iw : GoError),
      Unwrap (chainErrors (GoError.ae orc od oit onn om ow)
          (GoError.ae irc idb iit inn im iw)) = GoError.ae irc idb iit inn im iw ∧
      Matches (chainErrors (GoError.ae orc od oit onn om ow)
          (GoError.ae irc idb iit inn im iw)) [orc] = true ∧
      Matches (chainErrors (GoError.ae orc od oit onn om ow)
          (GoError.ae irc idb iit inn im iw)) [irc] = true) := by
  refine ⟨?_, ?_, ?_⟩
  · intro inner he
    cases inner with
    | nilE => rfl
    | ae rc d it n m w => simp [chainErrors, isErrVal]
    | foreign i inr => simp [isErrVal] at he
  · intro outer
    cases outer <;> rfl
  · intro orc od oit onn om ow irc idb iit inn im iw
    have hch : chainErrors (GoError.ae orc od oit onn om ow)
        (GoError.ae irc idb iit inn im iw) =
        GoError.ae orc od oit onn om (GoError.ae irc idb iit inn im iw) := by
      simp [chainErrors]
    refine ⟨by rw [hch]; rfl, ?_, ?_⟩
    · rw [hch, matches_iff_chainCodes
        (GoError.ae orc od oit onn om (GoError.ae irc idb iit inn im iw)) rfl [orc]
        (by simp)]
      exact ⟨orc, by simp [chainCodes], by simp⟩
    · rw [hch, matches_iff_chainCodes
        (GoError.ae orc od oit onn om (GoError.ae irc idb iit inn im iw)) rfl [irc]
        (by simp)]
      exact ⟨irc, by simp [chainCodes], by simp⟩

/-- C4 witness: the three parts instantiated at concrete errors. -/
theorem claimC4_witness :
    chainErrors GoError.nilE (GoError.ae 3 false 0 none "x" GoError.nilE) =
        GoError.ae 3 false 0 none "x" GoError.nilE ∧
      chainErrors (GoError.ae 4 false 0 none "y" GoError.nilE) GoError.nilE =
        GoError.ae 4 false 0 none "y" GoError.nilE ∧
      Matches (chainErrors (GoError.ae 4 false 0 none "y" GoError.nilE)
        (GoError.ae 3 false 0 none "x" GoError.nilE)) [3] = true :=
  ⟨claimC4_chainErrors.1 (GoError.ae 3 false 0 none "x" GoError.nilE) rfl,
   claimC4_chainErrors.2.1 (GoError.ae 4 false 0 none "y" GoError.nilE),
   (claimC4_chainErrors.2.2 4 false 0 none "y" GoError.nilE 3 false 0 none "x"
      GoError.nilE).2.2⟩

/-!
Replica-count resize and regime-gated updates.
-/

/-- C8: `setReplicaCount` yields exactly `n` rows; every row that existed
before and survives is unchanged element for element (this covers both the
growing case, which keeps all old rows, and the shrinking case, which keeps
the first `n`); a grown row range is filled with fresh all-nil rows of the
fixed partition count. -/
theorem claimC8_setReplicaCount (p : Partitions) (n : Nat) :
    (setReplicaCount p n).Replicas.length = n ∧
    (∀ i : Nat, i < n → i < p.Replicas.length →
      (setReplicaCount p n).Replicas[i]? = p.Replicas[i]?) ∧
    (∀ i : Nat, p.Replicas.length ≤ i → i < n →
      (setReplicaCount p n).Replicas[i]? = some (List.replicate _PARTITIONS none)) := by
  by_cases h : p.Replicas.length < n
  · rw [setReplicaCount, if_pos h]
    refine ⟨by simp; omega, ?_, ?_⟩
    · intro i _ hilen
      simp only
      rw [List.getElem?_append, if_pos hilen]
    · intro i hle hin
      simp only
      rw [List.getElem?_append, if_neg (by omega)]
      rw [List.getElem?_replicate, if_pos (by omega)]
  · rw [setReplicaCount, if_neg h]
    refine ⟨by simp; omega, ?_, ?_⟩
    · intro i hin _
      simp only
      rw [List.getElem?_take, if_pos hin]
    · intro i hle hin
      omega

/-- A one-row Partitions used to instantiate the resize claim. -/
def resizeSample : Partitions := { Replicas := [[some 1]], SCMode := false, regimes := [] }

/-- C8 witness: growing the one-row sample to two rows keeps row 0 and adds
a fresh all-nil row 1. -/
theorem claimC8_witness :
    (setReplicaCount resizeSample 2).Replicas.length = 2 ∧
      (setReplicaCount resizeSample 2).Replicas[0]? = resizeSample.Replicas[0]? ∧
      (setReplicaCount resizeSample 2).Replicas[1]? =
        some (List.replicate _PARTITIONS none) :=
  ⟨(claimC8_setReplicaCount resizeSample 2).1,
   (claimC8_setReplicaCount resizeSample 2).2.1 0 (by norm_num) (by simp [resizeSample]),
   (claimC8_setReplicaCount resizeSample 2).2.2 1 (by simp [resizeSample]) (by norm_num)⟩

/-- Modelled from the spec: the regime-gated partition update applied by the
tend-side partition parser, which is not among the provided sources.  Per
the spec, "A regime update for a partition is accepted only if its value is
≥ the currently stored regime; lower values are discarded as stale", and an
accepted update "replaces the prior node assignment for that partition"
while storing the new regime. -/
def updateRegime (p : Partitions) (replica partitionId : Nat) (node : Option Nat)
    (regime : Int) : Partitions :=
  if p.regimes.getD partitionId 0 ≤ regime then
    { p with
      Replicas :=
        p.Replicas.set replica ((p.Replicas.getD replica []).set partitionId node)
      regimes := p.regimes.set partitionId regime }
  else p

/-- C5: a regime update strictly below the stored regime is discarded — the
stored regime and the node assignment are fully retained; an update at or
above the stored regime replaces the stored regime and the node assignment
for that partition. -/
theorem claimC5_updateRegime (p : Partitions) (replica partitionId : Nat)
    (node : Option Nat) (regime : Int) :
    (regime < p.regimes.getD partitionId 0 →
      updateRegime p replica partitionId node regime = p) ∧
    (p.regimes.getD partitionId 0 ≤ regime →
      (partitionId < p.regimes.length →
        (updateRegime p replica partitionId node regime).regimes[partitionId]? =
          some regime) ∧
      (replica < p.Replicas.length →
        partitionId < (p.Replicas.getD replica []).length →
        ((updateRegime p replica partitionId node regime).Replicas.getD replica
            [])[partitionId]? = some node)) := by
  constructor
  · intro hlt
    rw [updateRegime, if_neg (by omega)]
  · intro hge
    rw [updateRegime, if_pos hge]
    constructor
    · intro hpl
      simp only
      rw [List.getElem?_set_self (by omega)]
    · intro hrl hpl
      simp only
      rw [List.getD_eq_getElem?_getD, List.getElem?_set_self hrl]
      simp only [Option.getD_some]
      rw [List.getElem?_set_self hpl]

/-- C5 witness: a stale update (regime 1 against stored 5) is discarded; a
fresh one (regime 6) replaces regime and node for partition 0. -/
theorem claimC5_witness :
    updateRegime (Partitions.mk [[some 3]] false [5]) 0 0 (some 9) 1 =
        Partitions.mk [[some 3]] false [5] ∧
      (updateRegime (Partitions.mk [[some 3]] false [5]) 0 0 (some 9) 6).regimes[0]? =
        some 6 ∧
      ((updateRegime (Partitions.mk [[some 3]] false [5]) 0 0 (some 9) 6).Replicas.getD 0
          [])[0]? = some (some 9) :=
  ⟨(claimC5_updateRegime (Partitions.mk [[some 3]] false [5]) 0 0 (some 9) 1).1
      (by norm_num [List.getD]),
   ((claimC5_updateRegime (Partitions.mk [[some 3]] false [5]) 0 0 (some 9) 6).2
      (by norm_num [List.getD])).1 (by simp),
   ((claimC5_updateRegime (Partitions.mk [[some 3]] false [5]) 0 0 (some 9) 6).2
      (by norm_num [List.getD])).2 (by simp) (by simp [List.getD])⟩

/-!
Slice-aliasing model for `Partitions.clone`.

Go slices are references into backing arrays; `clone()`'s guarantee is
precisely about aliasing, so here the inner `[]*Node` slices and the
`[]int` regimes slices live in an explicit heap and a `Partitions` holds
references (indices) into it.  Allocation (`make`/`copy` in the source)
appends a fresh cell.
-/

/-- The heap of slice backing arrays: node rows and regime slices, addressed
by index; allocation appends. -/
structure SliceHeap where
  rows : List (List (Option Nat))
  regs : List (List Int)
deriving DecidableEq

/-- A `Partitions` at the aliasing level: row references into the heap, the
SC flag, and a regimes reference. -/
structure HPartitions where
  Replicas : List Nat
  SCMode : Bool
  regimes : Nat
deriving DecidableEq

/-- Dereference a row slice. -/
def readRow (h : SliceHeap) (r : Nat) : List (Option Nat) := h.rows.getD r []

/-- Dereference a regimes slice. -/
def readReg (h : SliceHeap) (r : Nat) : List Int := h.regs.getD r []

/-- `p.Replicas[·][i] = v`: write one node slot through a row reference. -/
def writeRowSlot (h : SliceHeap) (r i : Nat) (v : Option Nat) : SliceHeap :=
  { h with rows := h.rows.set r ((h.rows.getD r []).set i v) }

/-- `p.regimes[i] = v`: write one regime slot through a regimes reference. -/
def writeRegSlot (h : SliceHeap) (r i : Nat) (v : Int) : SliceHeap :=
  { h with regs := h.regs.set r ((h.regs.getD r []).set i v) }

/-- `Partitions.clone`, translated from partitions.go at the aliasing level:
for each replica row, `make` a fresh inner slice and `copy` the contents;
`make`+`copy` a fresh regimes slice; keep `SCMode`.  The fresh cells are the
appended heap suffix, and the returned `HPartitions` references only them. -/
def cloneP (h : SliceHeap) (p : HPartitions) : SliceHeap × HPartitions :=
  ({ rows := h.rows ++ p.Replicas.map (fun r => readRow h r)
     regs := h.regs ++ [readReg h p.regimes] },
   { Replicas := (List.range p.Replicas.length).map (fun i => h.rows.length + i)
     SCMode := p.SCMode
     regimes := h.regs.length })

/-- The references of `p` are live cells of `h`. -/
def validIn (h : SliceHeap) (p : HPartitions) : Prop :=
  (∀ r ∈ p.Replicas, r < h.rows.length) ∧ p.regimes < h.regs.length

theorem cloneP_ref (h : SliceHeap) (p : HPartitions) (k : Nat)
    (hk : k < p.Replicas.length) :
    (cloneP h p).2.Replicas.getD k 0 = h.rows.length + k := by
  simp [cloneP, List.getD_eq_getElem?_getD, List.getElem?_map, List.getElem?_range, hk]

theorem readRow_append_left (h : SliceHeap) (rows2 : List (List (Option Nat)))
    (regs2 : List (List Int)) (r : Nat) (hr : r < h.rows.length) :
    readRow { rows := h.rows ++ rows2, regs := regs2 } r = readRow h r := by
  simp only [readRow, List.getD_eq_getElem?_getD]
  rw [List.getElem?_append, if_pos hr]

theorem cloneP_readRow (h : SliceHeap) (p : HPartitions) (k : Nat)
    (hk : k < p.Replicas.length) :
    readRow (cloneP h p).1 (h.rows.length + k) = readRow h (p.Replicas.getD k 0) := by
  have hr : p.Replicas[k]? = some p.Replicas[k] := List.getElem?_eq_getElem hk
  simp only [cloneP, readRow, List.getD_eq_getElem?_getD]
  rw [List.getElem?_append, if_neg (by omega)]
  simp [Nat.add_sub_cancel_left, List.getElem?_map, hr]

theorem readReg_append_left (h : SliceHeap) (rows2 : List (List (Option Nat)))
    (regs2 : List (List Int)) (r : Nat) (hr : r < h.regs.length) :
    readReg { rows := rows2, regs := h.regs ++ regs2 } r = readReg h r := by
  simp only [readReg, List.getD_eq_getElem?_getD]
  rw [List.getElem?_append, if_pos hr]

theorem cloneP_readReg (h : SliceHeap) (p : HPartitions) :
    readReg (cloneP h p).1 h.regs.length = readReg h p.regimes := by
  simp only [cloneP, readReg, List.getD_eq_getElem?_getD]
  rw [List.getElem?_append_right (le_refl _)]
  simp

theorem readRow_writeRowSlot_ne (h : SliceHeap) (j r i : Nat) (v : Option Nat)
    (hne : j ≠ r) : readRow (writeRowSlot h j i v) r = readRow h r := by
  simp only [writeRowSlot, readRow, List.getD_eq_getElem?_getD]
  rw [List.getElem?_set_ne hne]

theorem readReg_writeRegSlot_ne (h : SliceHeap) (j r i : Nat) (v : Int)
    (hne : j ≠ r) : readReg (writeRegSlot h j i v) r = readReg h r := by
  simp only [writeRegSlot, readReg, List.getD_eq_getElem?_getD]
  rw [List.getElem?_set_ne hne]

/-- C7: `clone()` yields an independent deep copy.  With the source's
references valid in the heap: the clone initially agrees with the source
(SC flag, every row's contents, regimes contents); writing any node or
regime slot through the clone's references leaves every read through the
source's references unchanged; and writing through the source's references
leaves every read through the clone's references unchanged. -/
theorem claimC7_clone (h : SliceHeap) (p : HPartitions) (hv : validIn h p) :
    ((cloneP h p).2.SCMode = p.SCMode ∧
      (∀ k, k < p.Replicas.length →
        readRow (cloneP h p).1 ((cloneP h p).2.Replicas.getD k 0) =
          readRow h (p.Replicas.getD k 0)) ∧
      readReg (cloneP h p).1 (cloneP h p).2.regimes = readReg h p.regimes) ∧
    ((∀ k, k < p.Replicas.length → ∀ (i : Nat) (v : Option Nat), ∀ r ∈ p.Replicas,
        readRow (writeRowSlot (cloneP h p).1 ((cloneP h p).2.Replicas.getD k 0) i v) r =
          readRow (cloneP h p).1 r) ∧
      (∀ (i : Nat) (v : Int),
        readReg (writeRegSlot (cloneP h p).1 (cloneP h p).2.regimes i v) p.regimes =
          readReg (cloneP h p).1 p.regimes)) ∧
    ((∀ r ∈ p.Replicas, ∀ (i : Nat) (v : Option Nat), ∀ k, k < p.Replicas.length →
        readRow (writeRowSlot (cloneP h p).1 r i v) ((cloneP h p).2.Replicas.getD k 0) =
          readRow (cloneP h p).1 ((cloneP h p).2.Replicas.getD k 0)) ∧
      (∀ (i : Nat) (v : Int),
        readReg (writeRegSlot (cloneP h p).1 p.regimes i v) (cloneP h p).2.regimes =
          readReg (cloneP h p).1 (cloneP h p).2.regimes)) := by
  obtain ⟨hrows, hreg⟩ := hv
  refine ⟨⟨rfl, ?_, ?_⟩, ⟨?_, ?_⟩, ⟨?_, ?_⟩⟩
  · intro k hk
    rw [cloneP_ref h p k hk]
    exact cloneP_readRow h p k hk
  · rw [show (cloneP h p).2.regimes = h.regs.length from rfl]
    exact cloneP_readReg h p
  · intro k hk i v r hrm
    rw [cloneP_ref h p k hk]
    exact readRow_writeRowSlot_ne _ _ _ _ _ (by have := hrows r hrm; omega)
  · intro i v
    rw [show (cloneP h p).2.regimes = h.regs.length from rfl]
    exact readReg_writeRegSlot_ne _ _ _ _ _ (by omega)
  · intro r hrm i v k hk
    rw [cloneP_ref h p k hk]
    exact readRow_writeRowSlot_ne _ _ _ _ _ (by have := hrows r hrm; omega)
  · intro i v
    rw [show (cloneP h p).2.regimes = h.regs.length from rfl]
    exact readReg_writeRegSlot_ne _ _ _ _ _ (by omega)

/-- A one-row heap used to instantiate the clone claim. -/
def heapSample : SliceHeap := { rows := [[some 1]], regs := [[2]] }

/-- A Partitions referencing `heapSample`'s only cells. -/
def partsSample : HPartitions := { Replicas := [0], SCMode := true, regimes := 0 }

theorem partsSample_valid : validIn heapSample partsSample := by
  constructor
  · intro r hr
    simp only [partsSample, List.mem_singleton] at hr
    subst hr
    simp [heapSample]
  · simp [heapSample, partsSample]

/-- C7 witness: cloning the one-cell sample — the clone's row agrees with
the source's, and writing the clone's row slot 0 leaves the source row
unchanged. -/
theorem claimC7_witness :
    readRow (cloneP heapSample partsSample).1
        ((cloneP heapSample partsSample).2.Replicas.getD 0 0) =
      readRow heapSample (partsSample.Replicas.getD 0 0) ∧
    readRow (writeRowSlot (cloneP heapSample partsSample).1
        ((cloneP heapSample partsSample).2.Replicas.getD 0 0) 0 (some 9)) 0 =
      readRow (cloneP heapSample partsSample).1 0 :=
  ⟨(claimC7_clone heapSample partsSample partsSample_valid).1.2.1 0
      (by simp [partsSample]),
   (claimC7_clone heapSample partsSample partsSample_valid).2.1.1 0
      (by simp [partsSample]) 0 (some 9) 0 (by simp [partsSample])⟩

/-!
Struct-copy model for the shared constant (sentinel) error instances.

`constAerospikeError.err()` and `chainErrors` attach context by copying the
shared struct (`v := ase.AerospikeError`, `t := outer.(...).AerospikeError`)
and then mutating only the copy (`v.wrap(nil)`, `ae.wrapped = inner`).
Whether the shared instance is written through or copied is an aliasing
question, so `*AerospikeError` structs live in an explicit store and the two
operations are translated as copy-allocate-then-write. -/

/-- The field contents of one `AerospikeError` struct (source field order:
wrapped, msg, Node, ResultCode, InDoubt, Iteration). -/
structure AEVal where
  wrapped : GoError
  msg : String
  node : Option Nat
  resultCode : ResultCode
  inDoubt : Bool
  iteration : Int
deriving DecidableEq

/-- The zero value of the struct. -/
def defaultAEVal : AEVal :=
  { wrapped := GoError.nilE, msg := "", node := none, resultCode := 0,
    inDoubt := false, iteration := 0 }

/-- A store of `AerospikeError` structs addressed by index; allocation
appends. -/
structure ErrStore where
  cells : List AEVal
deriving DecidableEq

/-- Dereference a struct pointer. -/
def readCell (s : ErrStore) (r : Nat) : AEVal := s.cells.getD r defaultAEVal

/-- `ase.wrap(err)` through a pointer: writes the wrapped field of cell `r`. -/
def wrapAt (s : ErrStore) (r : Nat) (e : GoError) : ErrStore :=
  { cells := s.cells.set r { readCell s r with wrapped := e } }

/-- `constAerospikeError.err()`, translated from error.go at the aliasing
level: `v := ase.AerospikeError` copies the shared struct into a fresh cell,
`v.wrap(nil)` writes the copy, and `&v` (the fresh reference) is returned. -/
def constErrCall (s : ErrStore) (r : Nat) : ErrStore × Nat :=
  (wrapAt { cells := s.cells ++ [readCell s r] } s.cells.length GoError.nilE,
   s.cells.length)

/-- The non-nil/non-nil path of `chainErrors`, translated from error.go at
the aliasing level: both branches of the type switch copy the outer struct
(`t := ...; ae = &t`) into a fresh cell before `ae.wrapped = inner` writes
the copy. -/
def chainErrorsAt (s : ErrStore) (outer : Nat) (inner : GoError) : ErrStore × Nat :=
  (wrapAt { cells := s.cells ++ [readCell s outer] } s.cells.length inner,
   s.cells.length)

theorem readCell_append_left (s : ErrStore) (x : AEVal) (r : Nat)
    (hr : r < s.cells.length) : readCell { cells := s.cells ++ [x] } r = readCell s r := by
  simp only [readCell, List.getD_eq_getElem?_getD]
  rw [List.getElem?_append, if_pos hr]

theorem readCell_wrapAt_ne (s : ErrStore) (j r : Nat) (e : GoError) (hne : j ≠ r) :
    readCell (wrapAt s j e) r = readCell s r := by
  simp only [wrapAt, readCell, List.getD_eq_getElem?_getD]
  rw [List.getElem?_set_ne hne]

theorem readCell_wrapAt_self (s : ErrStore) (j : Nat) (e : GoError)
    (hj : j < s.cells.length) :
    readCell (wrapAt s j e) j = { readCell s j with wrapped := e } := by
  simp only [wrapAt, readCell, List.getD_eq_getElem?_getD]
  rw [List.getElem?_set_self hj]
  rfl

/-- C9: attaching call-specific context to a shared constant error — via
`err()` or by chaining it as the outer error — leaves every field of the
shared cell unchanged; the produced reference is a fresh cell (distinct from
the shared one) carrying the context: `err()` yields the copy with a nil
wrapped error, chaining yields the copy wrapping the inner error. -/
theorem claimC9_constImmutable (s : ErrStore) (r : Nat) (inner : GoError)
    (hr : r < s.cells.length) :
    (readCell (constErrCall s r).1 r = readCell s r ∧
      (constErrCall s r).2 ≠ r ∧
      readCell (constErrCall s r).1 (constErrCall s r).2 =
        { readCell s r with wrapped := GoError.nilE }) ∧
    (readCell (chainErrorsAt s r inner).1 r = readCell s r ∧
      (chainErrorsAt s r inner).2 ≠ r ∧
      readCell (chainErrorsAt s r inner).1 (chainErrorsAt s r inner).2 =
        { readCell s r with wrapped := inner }) := by
  have hlen : ({ cells := s.cells ++ [readCell s r] } : ErrStore).cells.length =
      s.cells.length + 1 := by simp
  constructor
  · refine ⟨?_, by rw [show (constErrCall s r).2 = s.cells.length from rfl]; omega, ?_⟩
    · rw [show (constErrCall s r).1 =
          wrapAt { cells := s.cells ++ [readCell s r] } s.cells.length GoError.nilE
          from rfl]
      rw [readCell_wrapAt_ne _ _ _ _ (by omega), readCell_append_left _ _ _ hr]
    · rw [show (constErrCall s r).2 = s.cells.length from rfl,
        show (constErrCall s r).1 =
          wrapAt { cells := s.cells ++ [readCell s r] } s.cells.length GoError.nilE
          from rfl]
      rw [readCell_wrapAt_self _ _ _ (by omega)]
      have : readCell { cells := s.cells ++ [readCell s r] } s.cells.length =
          readCell s r := by
        simp only [readCell, List.getD_eq_getElem?_getD]
        rw [List.getElem?_append_right (le_refl _)]
        simp
      rw [this]
  · refine ⟨?_,
      by rw [show (chainErrorsAt s r inner).2 = s.cells.length from rfl]; omega, ?_⟩
    · rw [show (chainErrorsAt s r inner).1 =
          wrapAt { cells := s.cells ++ [readCell s r] } s.cells.length inner from rfl]
      rw [readCell_wrapAt_ne _ _ _ _ (by omega), readCell_append_left _ _ _ hr]
    · rw [show (chainErrorsAt s r inner).2 = s.cells.length from rfl,
        show (chainErrorsAt s r inner).1 =
          wrapAt { cells := s.cells ++ [readCell s r] } s.cells.length inner from rfl]
      rw [readCell_wrapAt_self _ _ _ (by omega)]
      have : readCell { cells := s.cells ++ [readCell s r] } s.cells.length =
          readCell s r := by
        simp only [readCell, List.getD_eq_getElem?_getD]
        rw [List.getElem?_append_right (le_refl _)]
        simp
      rw [this]

/-- A one-cell store holding a constant error instance. -/
def storeSample : ErrStore :=
  { cells := [{ wrapped := GoError.nilE, msg := "const", node := none,
                resultCode := INVALID_CLUSTER_PARTITION_MAP, inDoubt := false,
                iteration := 0 }] }

/-- C9 witness: `err()` on the one-cell store leaves the shared cell intact
and returns a fresh reference. -/
theorem claimC9_witness :
    readCell (constErrCall storeSample 0).1 0 = readCell storeSample 0 ∧
      (constErrCall storeSample 0).2 ≠ 0 ∧
      readCell (chainErrorsAt storeSample 0 (GoError.ae 1 false 0 none "x"
          GoError.nilE)).1 0 = readCell storeSample 0 :=
  ⟨((claimC9_constImmutable storeSample 0
      (GoError.ae 1 false 0 none "x" GoError.nilE) (by simp [storeSample])).1).1,
   ((claimC9_constImmutable storeSample 0
      (GoError.ae 1 false 0 none "x" GoError.nilE) (by simp [storeSample])).1).2.1,
   ((claimC9_constImmutable storeSample 0
      (GoError.ae 1 false 0 none "x" GoError.nilE) (by simp [storeSample])).2).1⟩
